import Mathlib

/-!
Verification of the Jagga chat-ingestion and columnar-serialization core.

The definitions below are a shallow embedding of the Python sources:
  * `src/src/models.py`        — `UnifiedMessage`
  * `src/src/optimization.py`  — `convert_to_optimized_format`, `save_optimized_json`,
                                 `load_optimized_json`, `decode_to_unified_messages`
  * `src/python_src/parsers.py`— `parse_whatsapp`, `parse_instagram`
Stateful Python (file I/O) is modelled by explicit state passing; Python
exceptions are modelled with `Option`/`Except`.
-/

namespace Jagga

/-! ## Python `datetime.datetime` (naive) -/

/-- A naive Python `datetime.datetime`: year, month, day, hour, minute, second,
microsecond, no timezone. -/
structure PyDateTime where
  year : Nat
  month : Nat
  day : Nat
  hour : Nat
  minute : Nat
  second : Nat
  microsecond : Nat
deriving DecidableEq, Repr

/-- Gregorian leap-year rule, as used by `datetime`. -/
def isLeapYear (y : Nat) : Bool :=
  (y % 4 == 0 && y % 100 != 0) || y % 400 == 0

/-- Number of days in month `m` of year `y`. -/
def daysInMonth (y m : Nat) : Nat :=
  if m = 2 then (if isLeapYear y then 29 else 28)
  else if m = 4 ∨ m = 6 ∨ m = 9 ∨ m = 11 then 30
  else 31

/-- The field ranges that every constructed Python `datetime` satisfies
(`datetime.__new__` validates them and raises `ValueError` otherwise). -/
def PyDateTime.Valid (t : PyDateTime) : Prop :=
  1 ≤ t.year ∧ t.year ≤ 9999 ∧ 1 ≤ t.month ∧ t.month ≤ 12 ∧
  1 ≤ t.day ∧ t.day ≤ daysInMonth t.year t.month ∧
  t.hour ≤ 23 ∧ t.minute ≤ 59 ∧ t.second ≤ 59 ∧ t.microsecond ≤ 999999

instance (t : PyDateTime) : Decidable t.Valid := by
  unfold PyDateTime.Valid; infer_instance

/-! ### Decimal digit printing/parsing for the ISO format -/

/-- The ASCII digit character for `n % 10` (`'0'`–`'9'`). -/
def digitOf (n : Nat) : Char :=
  match n % 10 with
  | 0 => '0' | 1 => '1' | 2 => '2' | 3 => '3' | 4 => '4'
  | 5 => '5' | 6 => '6' | 7 => '7' | 8 => '8' | _ => '9'

def isDigitChar (c : Char) : Bool := 48 ≤ c.toNat && c.toNat ≤ 57

def digitVal (c : Char) : Nat := c.toNat - 48

/-- Zero-padded 2-digit rendering (`%02d`). -/
def pad2 (n : Nat) : List Char := [digitOf (n / 10), digitOf n]

/-- Zero-padded 4-digit rendering (`%04d`). -/
def pad4 (n : Nat) : List Char :=
  [digitOf (n / 1000), digitOf (n / 100), digitOf (n / 10), digitOf n]

/-- Zero-padded 6-digit rendering (`%06d`). -/
def pad6 (n : Nat) : List Char :=
  [digitOf (n / 100000), digitOf (n / 10000), digitOf (n / 1000),
   digitOf (n / 100), digitOf (n / 10), digitOf n]

def read2 (a b : Char) : Option Nat :=
  if isDigitChar a && isDigitChar b then some (10 * digitVal a + digitVal b) else none

def read4 (a b c d : Char) : Option Nat :=
  if isDigitChar a && isDigitChar b && isDigitChar c && isDigitChar d then
    some (1000 * digitVal a + 100 * digitVal b + 10 * digitVal c + digitVal d)
  else none

def read6 (a b c d e f : Char) : Option Nat :=
  if isDigitChar a && isDigitChar b && isDigitChar c && isDigitChar d &&
     isDigitChar e && isDigitChar f then
    some (100000 * digitVal a + 10000 * digitVal b + 1000 * digitVal c +
          100 * digitVal d + 10 * digitVal e + digitVal f)
  else none

/-- `datetime.isoformat()`: `YYYY-MM-DDTHH:MM:SS`, with `.ffffff` appended
exactly when the microsecond field is nonzero. -/
def PyDateTime.isoformat (t : PyDateTime) : String :=
  ⟨pad4 t.year ++ '-' :: pad2 t.month ++ '-' :: pad2 t.day ++ 'T' ::
   pad2 t.hour ++ ':' :: pad2 t.minute ++ ':' :: pad2 t.second ++
   (if t.microsecond = 0 then [] else '.' :: pad6 t.microsecond)⟩

/-- `datetime.fromisoformat` on the grammar `isoformat` emits (the only strings
the repository ever feeds it): `YYYY-MM-DDTHH:MM:SS[.ffffff]`; the constructed
`datetime` is range-validated, `ValueError` (here `none`) otherwise. -/
def fromisoChars : List Char → Option PyDateTime
  | y1 :: y2 :: y3 :: y4 :: '-' :: m1 :: m2 :: '-' :: d1 :: d2 :: 'T' ::
    h1 :: h2 :: ':' :: n1 :: n2 :: ':' :: s1 :: s2 :: rest => do
      let y ← read4 y1 y2 y3 y4
      let mo ← read2 m1 m2
      let d ← read2 d1 d2
      let h ← read2 h1 h2
      let mi ← read2 n1 n2
      let s ← read2 s1 s2
      let us ← match rest with
        | [] => some 0
        | ['.', u1, u2, u3, u4, u5, u6] => read6 u1 u2 u3 u4 u5 u6
        | _ => none
      let t : PyDateTime := ⟨y, mo, d, h, mi, s, us⟩
      if t.Valid then some t else none
  | _ => none

def fromisoformat (s : String) : Option PyDateTime := fromisoChars s.data

/-! ## Unified message model (`src/src/models.py`) -/

/-- `UnifiedMessage`: one chat message normalized across platforms. -/
structure UnifiedMessage where
  timestamp : PyDateTime
  platform : String
  sender : String
  content : String
deriving DecidableEq, Repr

/-! ## Columnar encoding (`src/src/optimization.py`, `convert_to_optimized_format`) -/

/-- One row of the optimized table: `[timestamp, platform_idx, sender_idx, content]`. -/
structure Row where
  ts : String
  platform_idx : Nat
  sender_idx : Nat
  content : String
deriving DecidableEq, Repr

/-- The dictionary returned by `convert_to_optimized_format`:
`meta.platforms`, `meta.senders`, `columns`, `data`. -/
structure OptimizedDataset where
  platforms : List String
  senders : List String
  columns : List String
  data : List Row
deriving DecidableEq, Repr

def schemaColumns : List String := ["timestamp", "platform_idx", "sender_idx", "content"]

/-- The `if p not in platform_map: platform_map[p] = len(platforms); platforms.append(p)`
step.  The dict `platform_map` always maps a string to the position of its first
insertion into the list, i.e. to `List.indexOf`, so the list alone carries the state. -/
def internIdx (xs : List String) (s : String) : List String × Nat :=
  if s ∈ xs then (xs, xs.indexOf s) else (xs ++ [s], xs.length)

/-- The `for msg in messages` loop of `convert_to_optimized_format`. -/
def convertLoop : List UnifiedMessage → List String → List String → List Row →
    List String × List String × List Row
  | [], ps, ss, rows => (ps, ss, rows)
  | msg :: rest, ps, ss, rows =>
    let pr := internIdx ps msg.platform
    let sr := internIdx ss msg.sender
    convertLoop rest pr.1 sr.1
      (rows ++ [⟨msg.timestamp.isoformat, pr.2, sr.2, msg.content⟩])

def convert_to_optimized_format (messages : List UnifiedMessage) : OptimizedDataset :=
  let r := convertLoop messages [] [] []
  ⟨r.1, r.2.1, schemaColumns, r.2.2⟩

/-! ## Decoding (`decode_to_unified_messages`) -/

/-- Decode one row: out-of-range dictionary indices degrade to `"Unknown"`
(`platforms[p_idx] if 0 <= p_idx < len(platforms) else "Unknown"`); an
unparsable timestamp raises (`none`). -/
def decodeRow (platforms senders : List String) (r : Row) : Option UnifiedMessage :=
  (fromisoformat r.ts).map fun dt =>
    ⟨dt, platforms.getD r.platform_idx "Unknown",
     senders.getD r.sender_idx "Unknown", r.content⟩

def decode_to_unified_messages (d : OptimizedDataset) : Option (List UnifiedMessage) :=
  d.data.mapM (decodeRow d.platforms d.senders)

/-! ## Serialized size (`json.dumps(..., separators=(',',':'), ensure_ascii=False)`)
used as the splitter's base cost -/

/-- Hex digit for `n % 16`, lowercase as `json.dumps` emits in `\uXXXX`. -/
def hexDigit (n : Nat) : Char :=
  match n % 16 with
  | 0 => '0' | 1 => '1' | 2 => '2' | 3 => '3' | 4 => '4' | 5 => '5' | 6 => '6'
  | 7 => '7' | 8 => '8' | 9 => '9' | 10 => 'a' | 11 => 'b' | 12 => 'c'
  | 13 => 'd' | 14 => 'e' | _ => 'f'

/-- `json.dumps` escaping of one character with `ensure_ascii=False`. -/
def jsonEscapeChar (c : Char) : List Char :=
  if c = '"' then ['\\', '"']
  else if c = '\\' then ['\\', '\\']
  else if c = '\n' then ['\\', 'n']
  else if c = '\r' then ['\\', 'r']
  else if c = '\t' then ['\\', 't']
  else if c = '\x08' then ['\\', 'b']
  else if c = '\x0c' then ['\\', 'f']
  else if c.toNat < 32 then
    ['\\', 'u', '0', '0', hexDigit (c.toNat / 16), hexDigit c.toNat]
  else [c]

/-- Serialized JSON string literal. -/
def jsonStr (s : String) : List Char :=
  '"' :: (s.data.map jsonEscapeChar).flatten ++ ['"']

/-- Serialized JSON array with comma separator (minified). -/
def jsonArr (elems : List (List Char)) : List Char :=
  '[' :: List.intercalate [','] elems ++ [']']

/-- `json.dumps({"meta": meta, "columns": columns, "data": []}, separators=(',',':'),
ensure_ascii=False)` — the `base_structure` whose size is the splitter's base cost. -/
def baseJson (platforms senders columns : List String) : List Char :=
  "\x7b\"meta\":\x7b\"platforms\":".data ++ jsonArr (platforms.map jsonStr) ++
  ",\"senders\":".data ++ jsonArr (senders.map jsonStr) ++
  "\x7d,\"columns\":".data ++ jsonArr (columns.map jsonStr) ++
  ",\"data\":[]\x7d".data

/-- `estimate_tokens(text) = len(text)`. -/
def estimate_tokens (s : String) : Nat := s.length

/-- `base_tokens = estimate_tokens(base_json)`. -/
def baseTokensOf (d : OptimizedDataset) : Nat :=
  estimate_tokens ⟨baseJson d.platforms d.senders d.columns⟩

/-! ## Budgeted chunk splitter (`save_optimized_json`) -/

/-- `row_tokens = estimate_tokens(content if content else "") + 10`
(an empty string is falsy, so the fallback has the same length). -/
def rowTokens (r : Row) : Nat := r.content.length + 10

/-- Total cost of a chunk in the splitter's model: base cost plus row costs. -/
def chunkCost (base : Nat) (c : List Row) : Nat := base + (c.map rowTokens).sum

/-- The `for row in rows` splitting loop of `save_optimized_json`:
state is (`current_tokens`, `current_chunk_rows`, `saved_files`). -/
def splitLoop (base maxTokens : Nat) :
    List Row → Nat → List Row → List (List Row) → List (List Row)
  | [], _, chunk, saved => if chunk = [] then saved else saved ++ [chunk]
  | r :: rest, cur, chunk, saved =>
    if cur + rowTokens r > maxTokens ∧ chunk ≠ [] then
      splitLoop base maxTokens rest (base + rowTokens r) [r] (saved ++ [chunk])
    else
      splitLoop base maxTokens rest (cur + rowTokens r) (chunk ++ [r]) saved

/-- The list of row chunks `save_optimized_json` partitions `data` into. -/
def chunksOf (d : OptimizedDataset) (maxTokens : Nat) : List (List Row) :=
  splitLoop (baseTokensOf d) maxTokens d.data (baseTokensOf d) [] []

/-! ## Persistence model (`save_optimized_json` file writes, `load_optimized_json`) -/

/-- The artifact store: file name ↦ shard document, in write order.  `json.dump`
followed by `json.load` reproduces these documents exactly, so shards are stored
structurally. -/
abbrev FileSystem := List (String × OptimizedDataset)

def lookupFile : FileSystem → String → Option OptimizedDataset
  | [], _ => none
  | (n, d) :: rest, name => if n = name then some d else lookupFile rest name

/-- Shard file name: the original `filepath` when there is a single part, else
`{stem}_part{n}{suffix}`. -/
def shardName (stem suffix : String) (total partNum : Nat) : String :=
  if total = 1 ∧ partNum = 1 then stem ++ suffix
  else stem ++ "_part" ++ toString partNum ++ suffix

/-- `save_optimized_json`: split into chunks, then write each shard (identical
`meta`/`columns`, its slice of `data`).  Returns `created_paths` and the
resulting artifact store. -/
def save_optimized_json (d : OptimizedDataset) (stem suffix : String)
    (maxTokens : Nat) (fs : FileSystem) : List String × FileSystem :=
  let chunks := chunksOf d maxTokens
  let entries : FileSystem := chunks.enum.map fun p =>
    (shardName stem suffix chunks.length (p.1 + 1),
     ⟨d.platforms, d.senders, d.columns, p.2⟩)
  (entries.map Prod.fst, fs ++ entries)

/-- `directory.glob(f"{stem}_part*{suffix}")` membership: the name is
`{stem}_part` ++ anything ++ `{suffix}` with the two fixed pieces not
overlapping. -/
def globMatch (stem suffix : String) (name : String) : Bool :=
  (stem ++ "_part").data.isPrefixOf name.data &&
  suffix.data.isSuffixOf name.data &&
  stem.length + 5 + suffix.length ≤ name.length

/-- Lexicographic (code-point) comparison, the order `sorted()` puts the
discovered part paths in. -/
def listCharLe : List Char → List Char → Bool
  | [], _ => true
  | _ :: _, [] => false
  | a :: as, b :: bs =>
    if a.toNat < b.toNat then true
    else if b.toNat < a.toNat then false
    else listCharLe as bs

def strLe (a b : String) : Bool := listCharLe a.data b.data

/-- The Prop form of `strLe`, the order `sorted()` sorts the part paths by. -/
def strLeP (a b : String) : Prop := strLe a b = true

instance : DecidableRel strLeP := fun a b => by unfold strLeP; infer_instance

/-- `load_optimized_json`: exact file first; otherwise discover
`{stem}_part*{suffix}`, sort, and merge (meta/columns of the first part, all
parts' data concatenated).  `FileNotFoundError` when neither exists.
(`sorted()` is a stable sort; a stable sort is extensionally unique, so it is
embedded as insertion sort, which the kernel can evaluate.) -/
def load_optimized_json (fs : FileSystem) (stem suffix : String) :
    Except String OptimizedDataset :=
  match lookupFile fs (stem ++ suffix) with
  | some d => .ok d
  | none =>
    let parts := List.insertionSort strLeP ((fs.map Prod.fst).filter (globMatch stem suffix))
    if parts.isEmpty then .error "FileNotFoundError"
    else
      match parts.filterMap (lookupFile fs) with
      | [] => .error "ValueError"
      | d0 :: ds =>
        .ok ⟨d0.platforms, d0.senders, d0.columns,
             ((d0 :: ds).map OptimizedDataset.data).flatten⟩

/-- The spec's splitter example: three rows of content lengths `[5, 40, 5]`. -/
def exSplitDataset : OptimizedDataset :=
  ⟨["WhatsApp"], ["Alice"], schemaColumns,
   [⟨"2024-01-01T00:00:00", 0, 0, "aaaaa"⟩,
    ⟨"2024-01-01T00:00:01", 0, 0, "bbbbbbbbbbbbbbbbbbbbbbbbbbbbbbbbbbbbbbbb"⟩,
    ⟨"2024-01-01T00:00:02", 0, 0, "ccccc"⟩]⟩

/-! ### Chunk round-trip (C2) -/

/-- A dataset whose ten distinct rows split (with budget 1) into ten shards. -/
def exTenDataset : OptimizedDataset :=
  ⟨["WhatsApp"], ["Alice"], schemaColumns,
   [⟨"2024-01-01T00:00:00", 0, 0, "0"⟩, ⟨"2024-01-01T00:00:01", 0, 0, "1"⟩,
    ⟨"2024-01-01T00:00:02", 0, 0, "2"⟩, ⟨"2024-01-01T00:00:03", 0, 0, "3"⟩,
    ⟨"2024-01-01T00:00:04", 0, 0, "4"⟩, ⟨"2024-01-01T00:00:05", 0, 0, "5"⟩,
    ⟨"2024-01-01T00:00:06", 0, 0, "6"⟩, ⟨"2024-01-01T00:00:07", 0, 0, "7"⟩,
    ⟨"2024-01-01T00:00:08", 0, 0, "8"⟩, ⟨"2024-01-01T00:00:09", 0, 0, "9"⟩]⟩

/-! ## WhatsApp parser (`src/python_src/parsers.py`, `parse_whatsapp`)

The header regex
`^(\d{1,2}/\d{1,2}/\d{2,4}),\s*(\d{1,2}:\d{2}(?:[\s ]?[aApP][mM])?) - (.*?): (.*)$`
is embedded as a deterministic matcher; every counted-digit piece is followed by
a non-digit literal, which makes greedy-with-backtracking equivalent to
"maximal digit run of the allowed length".  Digits are modelled as ASCII
(the only digits WhatsApp exports contain). -/

/-- Python `str.isspace()` / regex `\s` whitespace (the code points that can
occur in chat exports). -/
def isPySpace (c : Char) : Bool :=
  c = ' ' ∨ c = '\t' ∨ c = '\n' ∨ c = '\r' ∨ c = '\x0b' ∨ c = '\x0c' ∨
  c = '\x1c' ∨ c = '\x1d' ∨ c = '\x1e' ∨ c = '\x1f' ∨ c = '\x85' ∨
  c = '\xa0' ∨ c = ' ' ∨ (0x2000 ≤ c.toNat ∧ c.toNat ≤ 0x200a) ∨
  c = ' ' ∨ c = ' ' ∨ c = ' ' ∨ c = ' ' ∨ c = '　'

/-- `str.strip()`: drop whitespace from both ends. -/
def stripChars (cs : List Char) : List Char :=
  ((cs.dropWhile isPySpace).reverse.dropWhile isPySpace).reverse

def pyStrip (s : String) : String := ⟨stripChars s.data⟩

/-- A counted digit run `\d{minL,maxL}` followed (in every use) by a non-digit,
so the maximal run must have an allowed length. -/
def matchDigits (minL maxL : Nat) (cs : List Char) :
    Option (List Char × List Char) :=
  let run := cs.takeWhile isDigitChar
  if minL ≤ run.length ∧ run.length ≤ maxL then
    some (run, cs.dropWhile isDigitChar)
  else none

def expectChar (c : Char) : List Char → Option (List Char)
  | x :: rest => if x = c then some rest else none
  | [] => none

def isAmPmStart (c : Char) : Bool := c = 'a' ∨ c = 'A' ∨ c = 'p' ∨ c = 'P'

def isMChar (c : Char) : Bool := c = 'm' ∨ c = 'M'

/-- The optional `(?:[\s ]?[aApP][mM])?` tail of the time group, greedy:
space-separated marker, then unseparated marker, then nothing.  The three
prefixes are mutually exclusive with the following literal `" - "`, so
committing to the first match is exactly the regex's backtracking. -/
def matchAmPmOpt (cs : List Char) : List Char × List Char :=
  match cs with
  | c1 :: c2 :: c3 :: rest =>
    if isPySpace c1 ∧ isAmPmStart c2 ∧ isMChar c3 then ([c1, c2, c3], rest)
    else if isAmPmStart c1 ∧ isMChar c2 then ([c1, c2], c3 :: rest)
    else ([], cs)
  | [c1, c2] => if isAmPmStart c1 ∧ isMChar c2 then ([c1, c2], []) else ([], cs)
  | _ => ([], cs)

/-- Non-greedy `(.*?): ` — split at the first occurrence of `": "`. -/
def splitColonSpace : List Char → Option (List Char × List Char)
  | ':' :: ' ' :: rest => some ([], rest)
  | c :: rest => (splitColonSpace rest).map fun p => (c :: p.1, p.2)
  | [] => none

/-- The header regex, returning the four groups (date, time, sender, content). -/
def headerMatch (cs : List Char) :
    Option (List Char × List Char × List Char × List Char) := do
  let (dd, r1) ← matchDigits 1 2 cs
  let r2 ← expectChar '/' r1
  let (mm, r3) ← matchDigits 1 2 r2
  let r4 ← expectChar '/' r3
  let (yy, r5) ← matchDigits 2 4 r4
  let r6 ← expectChar ',' r5
  let r7 := r6.dropWhile isPySpace
  let (th, r8) ← matchDigits 1 2 r7
  let r9 ← expectChar ':' r8
  let (tm, r10) ← matchDigits 2 2 r9
  let ap := matchAmPmOpt r10
  let r11 ← expectChar ' ' ap.2
  let r12 ← expectChar '-' r11
  let r13 ← expectChar ' ' r12
  let (sender, content) ← splitColonSpace r13
  some (dd ++ '/' :: mm ++ '/' :: yy, th ++ ':' :: tm ++ ap.1, sender, content)

/-! ### Time-string normalization (lines 51–58 of the parser) -/

/-- `time_str.replace(' ', ' ')`. -/
def replace202f (cs : List Char) : List Char :=
  cs.map fun c => if c = ' ' then ' ' else c

/-- Try the pattern `(\d{1,2}:\d{2})\s*([aApP][mM])` at this position. -/
def ampmSubMatch (cs : List Char) :
    Option (List Char × List Char × List Char) := do
  let (h, r1) ← matchDigits 1 2 cs
  let r2 ← expectChar ':' r1
  let (m, r3) ← matchDigits 2 2 r2
  let r4 := r3.dropWhile isPySpace
  match r4 with
  | c1 :: c2 :: rest =>
    if isAmPmStart c1 ∧ isMChar c2 then
      some (h ++ ':' :: m, [c1, c2], rest)
    else none
  | _ => none

/-- `re.sub(r'(\d{1,2}:\d{2})\s*([aApP][mM])', r'\1 \2', s)`: leftmost,
non-overlapping, continuing after each replacement.  Each step consumes at
least one character, so the input length is enough fuel. -/
def subAmPmGo : Nat → List Char → List Char
  | 0, cs => cs
  | _, [] => []
  | fuel + 1, c :: cs =>
    match ampmSubMatch (c :: cs) with
    | some (g1, g2, rest) => g1 ++ ' ' :: g2 ++ subAmPmGo fuel rest
    | none => c :: subAmPmGo fuel cs

def subAmPm (cs : List Char) : List Char := subAmPmGo cs.length cs

/-- Lines 51–73: clean the time string, join with the date, uppercase.
`str.upper()` is ASCII uppercasing here since the regex only lets ASCII
date/time characters through. -/
def normalizeDT (dateStr timeStr : List Char) : List Char :=
  let clean := subAmPm (stripChars (replace202f timeStr))
  (dateStr ++ ' ' :: clean).map Char.toUpper

/-! ### `datetime.strptime` for the four candidate formats

Each directive is CPython's `_strptime` regex: `%d` = `(3[01]|[12]\d|0[1-9]|[1-9])`,
`%m`/`%I` = `(1[0-2]|0[1-9]|[1-9])`, `%H` = `(2[0-3]|[0-1]\d|\d)`,
`%M` = `([0-5]\d|\d)`, `%y` = `\d\d`, `%Y` = `\d\d\d\d`, `%p` = `AM|PM`
(case-insensitive), and a space in the format matches `\s+`.  Every two-digit
branch ends in a digit while the following format piece never starts with one,
so "two digits if the two-digit value fits, else one" is the regex's
backtracking.  The whole string must be consumed, and the final
`datetime(...)` construction validates ranges. -/

def matchNum2or1 (ok2 ok1 : Nat → Bool) : List Char → Option (Nat × List Char)
  | a :: b :: rest =>
    if isDigitChar a ∧ isDigitChar b ∧ ok2 (10 * digitVal a + digitVal b) then
      some (10 * digitVal a + digitVal b, rest)
    else if isDigitChar a ∧ ok1 (digitVal a) then some (digitVal a, b :: rest)
    else none
  | [a] => if isDigitChar a ∧ ok1 (digitVal a) then some (digitVal a, []) else none
  | [] => none

def matchDayD : List Char → Option (Nat × List Char) :=
  matchNum2or1 (fun v => 1 ≤ v ∧ v ≤ 31) (fun v => 1 ≤ v)

def matchMonthD : List Char → Option (Nat × List Char) :=
  matchNum2or1 (fun v => 1 ≤ v ∧ v ≤ 12) (fun v => 1 ≤ v)

def matchHourH : List Char → Option (Nat × List Char) :=
  matchNum2or1 (fun v => v ≤ 23) (fun _ => true)

def matchHourI : List Char → Option (Nat × List Char) :=
  matchNum2or1 (fun v => 1 ≤ v ∧ v ≤ 12) (fun v => 1 ≤ v)

def matchMinuteM : List Char → Option (Nat × List Char) :=
  matchNum2or1 (fun v => v ≤ 59) (fun _ => true)

def matchYear2 : List Char → Option (Nat × List Char)
  | a :: b :: rest =>
    if isDigitChar a ∧ isDigitChar b then
      some (10 * digitVal a + digitVal b, rest)
    else none
  | _ => none

def matchYear4 : List Char → Option (Nat × List Char)
  | a :: b :: c :: d :: rest =>
    if isDigitChar a ∧ isDigitChar b ∧ isDigitChar c ∧ isDigitChar d then
      some (1000 * digitVal a + 100 * digitVal b + 10 * digitVal c + digitVal d,
            rest)
    else none
  | _ => none

/-- Format-string whitespace: `\s+`. -/
def matchWs : List Char → Option (List Char)
  | c :: rest => if isPySpace c then some (rest.dropWhile isPySpace) else none
  | [] => none

/-- `%p`: `AM` or `PM`, case-insensitively; returns `true` for PM. -/
def matchAmPmP : List Char → Option (Bool × List Char)
  | c1 :: c2 :: rest =>
    if (c1 = 'a' ∨ c1 = 'A') ∧ isMChar c2 then some (false, rest)
    else if (c1 = 'p' ∨ c1 = 'P') ∧ isMChar c2 then some (true, rest)
    else none
  | _ => none

/-- `_strptime`'s two-digit-year pivot: `00–68 → 2000s`, `69–99 → 1900s`. -/
def pivotYear (y : Nat) : Nat := if y ≤ 68 then 2000 + y else 1900 + y

/-- `datetime(year, month, day, hour, minute)`: range-validated construction. -/
def mkDatetime (y mo d h mi : Nat) : Option PyDateTime :=
  if 1 ≤ y ∧ y ≤ 9999 ∧ 1 ≤ mo ∧ mo ≤ 12 ∧ 1 ≤ d ∧ d ≤ daysInMonth y mo ∧
     h ≤ 23 ∧ mi ≤ 59 then
    some ⟨y, mo, d, h, mi, 0, 0⟩
  else none

/-- `%I`/`%p` to 24-hour: AM 12 → 0; PM < 12 → +12. -/
def apply12h (h : Nat) (pm : Bool) : Nat :=
  if pm then (if h ≠ 12 then h + 12 else h)
  else (if h = 12 then 0 else h)

/-- `strptime(s, "%d/%m/%Y %H:%M")`. -/
def parseFmt24Y4 (cs : List Char) : Option PyDateTime := do
  let (d, r1) ← matchDayD cs
  let r2 ← expectChar '/' r1
  let (mo, r3) ← matchMonthD r2
  let r4 ← expectChar '/' r3
  let (y, r5) ← matchYear4 r4
  let r6 ← matchWs r5
  let (h, r7) ← matchHourH r6
  let r8 ← expectChar ':' r7
  let (mi, r9) ← matchMinuteM r8
  if r9 = [] then mkDatetime y mo d h mi else none

/-- `strptime(s, "%d/%m/%y %H:%M")`. -/
def parseFmt24Y2 (cs : List Char) : Option PyDateTime := do
  let (d, r1) ← matchDayD cs
  let r2 ← expectChar '/' r1
  let (mo, r3) ← matchMonthD r2
  let r4 ← expectChar '/' r3
  let (y, r5) ← matchYear2 r4
  let r6 ← matchWs r5
  let (h, r7) ← matchHourH r6
  let r8 ← expectChar ':' r7
  let (mi, r9) ← matchMinuteM r8
  if r9 = [] then mkDatetime (pivotYear y) mo d h mi else none

/-- `strptime(s, "%d/%m/%Y %I:%M %p")`. -/
def parseFmt12Y4 (cs : List Char) : Option PyDateTime := do
  let (d, r1) ← matchDayD cs
  let r2 ← expectChar '/' r1
  let (mo, r3) ← matchMonthD r2
  let r4 ← expectChar '/' r3
  let (y, r5) ← matchYear4 r4
  let r6 ← matchWs r5
  let (h, r7) ← matchHourI r6
  let r8 ← expectChar ':' r7
  let (mi, r9) ← matchMinuteM r8
  let r10 ← matchWs r9
  let (pm, r11) ← matchAmPmP r10
  if r11 = [] then mkDatetime y mo d (apply12h h pm) mi else none

/-- `strptime(s, "%d/%m/%y %I:%M %p")`. -/
def parseFmt12Y2 (cs : List Char) : Option PyDateTime := do
  let (d, r1) ← matchDayD cs
  let r2 ← expectChar '/' r1
  let (mo, r3) ← matchMonthD r2
  let r4 ← expectChar '/' r3
  let (y, r5) ← matchYear2 r4
  let r6 ← matchWs r5
  let (h, r7) ← matchHourI r6
  let r8 ← expectChar ':' r7
  let (mi, r9) ← matchMinuteM r8
  let r10 ← matchWs r9
  let (pm, r11) ← matchAmPmP r10
  if r11 = [] then mkDatetime (pivotYear y) mo d (apply12h h pm) mi else none

/-- The `formats_to_try` loop: the four formats in their fixed order, first
success wins. -/
def tryFormats (cs : List Char) : Option PyDateTime :=
  match parseFmt24Y4 cs with
  | some dt => some dt
  | none =>
    match parseFmt24Y2 cs with
    | some dt => some dt
    | none =>
      match parseFmt12Y4 cs with
      | some dt => some dt
      | none => parseFmt12Y2 cs

/-! ### The line state machine -/

def mediaMarker : String := "<Media omitted>"

/-- One iteration of the `for line in f` loop.  State: (`messages`,
`current_msg`). -/
def processLine (st : List UnifiedMessage × Option UnifiedMessage)
    (rawLine : String) : List UnifiedMessage × Option UnifiedMessage :=
  let line := stripChars rawLine.data
  if line = [] then st
  else
    match headerMatch line with
    | some (dateStr, timeStr, sender, content) =>
      let msgs := st.1 ++ st.2.toList
      if stripChars content = mediaMarker.data then (msgs, none)
      else
        match tryFormats (normalizeDT dateStr timeStr) with
        | none => (msgs, none)
        | some dt =>
          (msgs, some ⟨dt, "WhatsApp", ⟨stripChars sender⟩, ⟨content⟩⟩)
    | none =>
      match st.2 with
      | some m => (st.1, some { m with content := m.content ++ "\n" ++ ⟨line⟩ })
      | none => st

/-- `parse_whatsapp` over the (newline-free) lines of the export: run the
state machine, then append the last open message. -/
def parse_whatsapp (lines : List String) : List UnifiedMessage :=
  let st := lines.foldl processLine ([], none)
  st.1 ++ st.2.toList

/-! ## Instagram parser (`src/python_src/parsers.py`, `parse_instagram`) -/

instance {ε α : Type} [DecidableEq ε] [DecidableEq α] : DecidableEq (Except ε α) :=
  fun x y =>
    match x, y with
    | .ok a, .ok b =>
      if h : a = b then isTrue (by rw [h])
      else isFalse (by intro hc; injection hc; contradiction)
    | .error e, .error f =>
      if h : e = f then isTrue (by rw [h])
      else isFalse (by intro hc; injection hc; contradiction)
    | .ok _, .error _ => isFalse (by intro hc; exact Except.noConfusion hc)
    | .error _, .ok _ => isFalse (by intro hc; exact Except.noConfusion hc)

/-- The `share` object of a record, when the `"share"` key is present;
`share_text` when the `"share_text"` key is present. -/
structure ShareObj where
  share_text : Option String
deriving DecidableEq, Repr

/-- One element of the export's `messages` array; `none` models a missing key
(`msg.get(...)`). -/
structure InstaRecord where
  sender_name : Option String
  timestamp_ms : Option Int
  content : Option String
  share : Option ShareObj
deriving DecidableEq, Repr

/-- `datetime.fromtimestamp(ts_ms / 1000.0)`: epoch milliseconds to a civil
datetime (Gregorian, days-from-epoch algorithm).  The host's local-timezone
offset is not modelled (the spec's "local instant, no timezone"), and the
float division is treated as exact; no claim depends on either. -/
def fromtimestamp (ms : Int) : PyDateTime :=
  let s := ms.ediv 1000
  let msr := (ms.emod 1000).toNat
  let days := s.ediv 86400
  let sod := (s.emod 86400).toNat
  let z := days + 719468
  let era := z.ediv 146097
  let doe := (z.emod 146097).toNat
  let yoe := (doe - doe / 1460 + doe / 36524 - doe / 146096) / 365
  let doy := doe - (365 * yoe + yoe / 4 - yoe / 100)
  let mp := (5 * doy + 2) / 153
  let d := doy - (153 * mp + 2) / 5 + 1
  let m := if mp < 10 then mp + 3 else mp - 9
  let y : Int := era * 400 + (yoe : Int) + (if m ≤ 2 then 1 else 0)
  ⟨y.toNat, m, d, sod / 3600, sod % 3600 / 60, sod % 60, msr * 1000⟩

/-- `s.encode('latin1')`: each code point must fit one byte, else
`UnicodeEncodeError`. -/
def encodeLatin1 (cs : List Char) : Option (List Nat) :=
  cs.mapM fun c => if c.toNat ≤ 255 then some c.toNat else none

def utf8Cont (b : Nat) : Bool := 0x80 ≤ b ∧ b ≤ 0xBF

/-- `bytes.decode('utf-8')` (strict): rejects truncated sequences, stray
continuation bytes, overlongs and surrogates.  Each step consumes at least one
byte, so the byte count is enough fuel. -/
def utf8DecodeGo : Nat → List Nat → Option (List Char)
  | _, [] => some []
  | 0, _ :: _ => none
  | fuel + 1, b :: rest =>
    if b ≤ 0x7F then
      (utf8DecodeGo fuel rest).map fun cs => Char.ofNat b :: cs
    else if 0xC2 ≤ b ∧ b ≤ 0xDF then
      match rest with
      | b2 :: rest2 =>
        if utf8Cont b2 then
          (utf8DecodeGo fuel rest2).map fun cs =>
            Char.ofNat ((b - 0xC0) * 64 + (b2 - 0x80)) :: cs
        else none
      | _ => none
    else if 0xE0 ≤ b ∧ b ≤ 0xEF then
      match rest with
      | b2 :: b3 :: rest3 =>
        if (if b = 0xE0 then 0xA0 else 0x80) ≤ b2 ∧
           b2 ≤ (if b = 0xED then 0x9F else 0xBF) ∧ utf8Cont b3 then
          (utf8DecodeGo fuel rest3).map fun cs =>
            Char.ofNat ((b - 0xE0) * 4096 + (b2 - 0x80) * 64 + (b3 - 0x80)) :: cs
        else none
      | _ => none
    else if 0xF0 ≤ b ∧ b ≤ 0xF4 then
      match rest with
      | b2 :: b3 :: b4 :: rest4 =>
        if (if b = 0xF0 then 0x90 else 0x80) ≤ b2 ∧
           b2 ≤ (if b = 0xF4 then 0x8F else 0xBF) ∧ utf8Cont b3 ∧ utf8Cont b4 then
          (utf8DecodeGo fuel rest4).map fun cs =>
            Char.ofNat ((b - 0xF0) * 262144 + (b2 - 0x80) * 4096 +
              (b3 - 0x80) * 64 + (b4 - 0x80)) :: cs
        else none
      | _ => none
    else none

def utf8Decode (bs : List Nat) : Option (List Char) := utf8DecodeGo bs.length bs

/-- `s.encode('latin1').decode('utf-8')`; `none` when either step raises. -/
def latin1Utf8Fix (s : String) : Option String :=
  ((encodeLatin1 s.data).bind utf8Decode).map fun cs => ⟨cs⟩

/-- The content actually used for a record: the `content` value when truthy
(present and nonempty), else the synthesized `"[Shared Post] " + share_text`
when available, else `none` (the record is skipped). -/
def recContent (r : InstaRecord) : Option String :=
  if r.content = none ∨ r.content = some "" then
    match r.share with
    | some sh =>
      match sh.share_text with
      | some st => some ("[Shared Post] " ++ st)
      | none => none
    | none => none
  else r.content

/-- One iteration of the record loop.  `.ok none` = record skipped
(`continue`); `.error` = an uncaught Python exception aborts the parse:
`TypeError` from `None / 1000.0` when `timestamp_ms` is missing,
`AttributeError` from `None.encode` when `sender_name` is missing and the
content repair did not already raise `UnicodeError` first.  (When the content
repair raises and `sender_name` is also missing, Python stores a `None`
sender; a `String` field cannot represent that, so the model marks it.)
If the content repairs but the sender repair raises `UnicodeError`, the
repaired content is kept with the original sender, exactly as the
`try/except: pass` leaves the rebound locals. -/
def buildRecord (r : InstaRecord) : Except String (Option UnifiedMessage) :=
  match recContent r with
  | none => .ok none
  | some content =>
    match r.timestamp_ms with
    | none => .error "TypeError"
    | some ts =>
      let dt := fromtimestamp ts
      match latin1Utf8Fix content with
      | none =>
        match r.sender_name with
        | none => .error "NoneSenderUnmodelled"
        | some snd => .ok (some ⟨dt, "Instagram", snd, content⟩)
      | some c2 =>
        match r.sender_name with
        | none => .error "AttributeError"
        | some snd =>
          match latin1Utf8Fix snd with
          | none => .ok (some ⟨dt, "Instagram", snd, c2⟩)
          | some s2 => .ok (some ⟨dt, "Instagram", s2, c2⟩)

/-- The `for msg in data["messages"]` loop: the first uncaught exception
aborts; otherwise messages accumulate in array order. -/
def instaLoop : List InstaRecord → List UnifiedMessage →
    Except String (List UnifiedMessage)
  | [], acc => .ok acc
  | r :: rest, acc =>
    match buildRecord r with
    | .error e => .error e
    | .ok none => instaLoop rest acc
    | .ok (some m) => instaLoop rest (acc ++ [m])

/-- Python `datetime` ordering: lexicographic on the seven fields. -/
def PyDateTime.le (a b : PyDateTime) : Prop :=
  a.year < b.year ∨ (a.year = b.year ∧ (a.month < b.month ∨ (a.month = b.month ∧
  (a.day < b.day ∨ (a.day = b.day ∧ (a.hour < b.hour ∨ (a.hour = b.hour ∧
  (a.minute < b.minute ∨ (a.minute = b.minute ∧ (a.second < b.second ∨
  (a.second = b.second ∧ a.microsecond ≤ b.microsecond)))))))))))

instance : DecidableRel PyDateTime.le := fun a b => by
  unfold PyDateTime.le; infer_instance

/-- The comparison `messages.sort(key=lambda x: x.timestamp)` sorts by. -/
def msgLe (m1 m2 : UnifiedMessage) : Prop := PyDateTime.le m1.timestamp m2.timestamp

instance : DecidableRel msgLe := fun a b => by unfold msgLe; infer_instance

instance : IsTotal UnifiedMessage msgLe :=
  ⟨fun a b => by unfold msgLe PyDateTime.le; omega⟩

instance : IsTrans UnifiedMessage msgLe :=
  ⟨fun a b c hab hbc => by unfold msgLe PyDateTime.le at *; omega⟩

/-- `parse_instagram`: build messages in array order, then
`messages.sort(key=...)` — a stable sort, extensionally unique, embedded as
insertion sort. -/
def parse_instagram (records : List InstaRecord) :
    Except String (List UnifiedMessage) :=
  (instaLoop records []).map fun msgs => List.insertionSort msgLe msgs

/-- Concrete messages for the C8 witness. -/
def igA : UnifiedMessage := ⟨⟨1970, 1, 1, 0, 0, 2, 0⟩, "Instagram", "A", "x"⟩

def igB : UnifiedMessage := ⟨⟨1970, 1, 1, 0, 0, 1, 0⟩, "Instagram", "B", "y"⟩

def igC : UnifiedMessage := ⟨⟨1970, 1, 1, 0, 0, 1, 0⟩, "Instagram", "C", "z"⟩


/-! ## Theorems -/

/-! ### ISO round-trip -/

theorem digitOf_eq (n : Nat) : (digitOf n).toNat = 48 + n % 10 := by
  have h : n % 10 < 10 := Nat.mod_lt _ (by decide)
  unfold digitOf
  interval_cases h10 : n % 10 <;> simp [h10]

theorem isDigitChar_digitOf (n : Nat) : isDigitChar (digitOf n) = true := by
  have := digitOf_eq n
  have h : n % 10 < 10 := Nat.mod_lt _ (by decide)
  simp [isDigitChar, this]; omega

theorem digitVal_digitOf (n : Nat) : digitVal (digitOf n) = n % 10 := by
  have := digitOf_eq n
  simp [digitVal, this]

theorem read2_pad2 (n : Nat) (h : n ≤ 99) :
    read2 (digitOf (n / 10)) (digitOf n) = some n := by
  simp [read2, isDigitChar_digitOf, digitVal_digitOf]
  omega

theorem read4_pad4 (n : Nat) (h : n ≤ 9999) :
    read4 (digitOf (n / 1000)) (digitOf (n / 100)) (digitOf (n / 10)) (digitOf n)
      = some n := by
  simp [read4, isDigitChar_digitOf, digitVal_digitOf]
  omega

theorem read6_pad6 (n : Nat) (h : n ≤ 999999) :
    read6 (digitOf (n / 100000)) (digitOf (n / 10000)) (digitOf (n / 1000))
      (digitOf (n / 100)) (digitOf (n / 10)) (digitOf n) = some n := by
  simp [read6, isDigitChar_digitOf, digitVal_digitOf]
  omega

theorem daysInMonth_le (y m : Nat) : daysInMonth y m ≤ 31 := by
  unfold daysInMonth; split_ifs <;> omega

/-- A valid datetime survives the ISO print/parse round trip intact. -/
theorem fromisoformat_isoformat (t : PyDateTime) (h : t.Valid) :
    fromisoformat t.isoformat = some t := by
  obtain ⟨y, mo, d, hh, mi, s, us⟩ := t
  obtain ⟨h1, h2, h3, h4, h5, h6, h7, h8, h9, h10⟩ := h
  dsimp only at h1 h2 h3 h4 h5 h6 h7 h8 h9 h10
  have hd99 : d ≤ 99 := by
    have := daysInMonth_le y mo; omega
  unfold fromisoformat PyDateTime.isoformat
  by_cases hus : us = 0
  · subst hus
    simp only [reduceIte]
    simp only [pad4, pad2, List.cons_append, List.nil_append, fromisoChars,
      read4_pad4 y (by omega), read2_pad2 mo (by omega),
      read2_pad2 d hd99, read2_pad2 hh (by omega),
      read2_pad2 mi (by omega), read2_pad2 s (by omega),
      Option.bind_some, Option.some_bind, Bind.bind, Option.bind]
    rw [if_pos]
    exact ⟨h1, h2, h3, h4, h5, h6, h7, h8, h9, by dsimp only; omega⟩
  · rw [if_neg hus]
    simp only [pad4, pad2, pad6, List.cons_append, List.nil_append, fromisoChars,
      read4_pad4 y (by omega), read2_pad2 mo (by omega),
      read2_pad2 d hd99, read2_pad2 hh (by omega),
      read2_pad2 mi (by omega), read2_pad2 s (by omega),
      read6_pad6 us (by omega),
      Option.bind_some, Option.some_bind, Bind.bind, Option.bind]
    rw [if_pos]
    exact ⟨h1, h2, h3, h4, h5, h6, h7, h8, h9, h10⟩

/-! ### Round-trip of the columnar encoding -/

theorem internIdx_isPrefix (xs : List String) (s : String) :
    xs <+: (internIdx xs s).1 := by
  unfold internIdx; split_ifs <;> simp

theorem internIdx_lt (xs : List String) (s : String) :
    (internIdx xs s).2 < (internIdx xs s).1.length := by
  unfold internIdx; split_ifs with h
  · simpa using List.indexOf_lt_length.2 h
  · simp

theorem internIdx_getD (xs : List String) (s d : String) :
    ((internIdx xs s).1).getD (internIdx xs s).2 d = s := by
  unfold internIdx; split_ifs with h
  · simp only
    rw [List.getD_eq_getElem _ _ (List.indexOf_lt_length.2 h)]
    exact List.getElem_indexOf _
  · simp

theorem convertLoop_platforms_isPrefix (M : List UnifiedMessage) :
    ∀ ps ss rows, ps <+: (convertLoop M ps ss rows).1 := by
  induction M with
  | nil => intro ps ss rows; simp [convertLoop]
  | cons m rest ih =>
    intro ps ss rows
    exact (internIdx_isPrefix ps m.platform).trans (ih _ _ _)

theorem convertLoop_senders_isPrefix (M : List UnifiedMessage) :
    ∀ ps ss rows, ss <+: (convertLoop M ps ss rows).2.1 := by
  induction M with
  | nil => intro ps ss rows; simp [convertLoop]
  | cons m rest ih =>
    intro ps ss rows
    exact (internIdx_isPrefix ss m.sender).trans (ih _ _ _)

theorem convertLoop_rows_append (M : List UnifiedMessage) :
    ∀ ps ss rows,
      (convertLoop M ps ss rows).1 = (convertLoop M ps ss []).1 ∧
      (convertLoop M ps ss rows).2.1 = (convertLoop M ps ss []).2.1 ∧
      (convertLoop M ps ss rows).2.2 = rows ++ (convertLoop M ps ss []).2.2 := by
  induction M with
  | nil => intro ps ss rows; simp [convertLoop]
  | cons m rest ih =>
    intro ps ss rows
    simp only [convertLoop, List.nil_append]
    obtain ⟨e1, e2, e3⟩ := ih (internIdx ps m.platform).1 (internIdx ss m.sender).1
      (rows ++ [⟨m.timestamp.isoformat, (internIdx ps m.platform).2,
                 (internIdx ss m.sender).2, m.content⟩])
    obtain ⟨f1, f2, f3⟩ := ih (internIdx ps m.platform).1 (internIdx ss m.sender).1
      [⟨m.timestamp.isoformat, (internIdx ps m.platform).2,
        (internIdx ss m.sender).2, m.content⟩]
    refine ⟨by rw [e1, f1], by rw [e2, f2], ?_⟩
    rw [e3, f3]
    simp

theorem getD_of_isPrefix {l L : List String} (h : l <+: L) {i : Nat} (hi : i < l.length)
    (d : String) : L.getD i d = l.getD i d := by
  obtain ⟨t, rfl⟩ := h
  rw [List.getD_eq_getElem _ _ (by simp; omega), List.getD_eq_getElem _ _ hi,
    List.getElem_append_left hi]

theorem decode_convertLoop (M : List UnifiedMessage) :
    ∀ ps ss, (∀ m ∈ M, m.timestamp.Valid) →
      ((convertLoop M ps ss []).2.2).mapM
        (decodeRow (convertLoop M ps ss []).1 (convertLoop M ps ss []).2.1) = some M := by
  induction M with
  | nil => intro ps ss _; simp only [convertLoop]; rfl
  | cons m rest ih =>
    intro ps ss hv
    have hm : m.timestamp.Valid := hv m (by simp)
    have hrest : ∀ x ∈ rest, x.timestamp.Valid := fun x hx => hv x (by simp [hx])
    simp only [convertLoop, List.nil_append]
    obtain ⟨e1, e2, e3⟩ := convertLoop_rows_append rest
      (internIdx ps m.platform).1 (internIdx ss m.sender).1
      [⟨m.timestamp.isoformat, (internIdx ps m.platform).2,
        (internIdx ss m.sender).2, m.content⟩]
    rw [e1, e2, e3]
    simp only [List.singleton_append, List.mapM_cons]
    have hdec : decodeRow (convertLoop rest (internIdx ps m.platform).1
        (internIdx ss m.sender).1 []).1
        (convertLoop rest (internIdx ps m.platform).1 (internIdx ss m.sender).1 []).2.1
        ⟨m.timestamp.isoformat, (internIdx ps m.platform).2,
         (internIdx ss m.sender).2, m.content⟩ = some m := by
      unfold decodeRow
      rw [fromisoformat_isoformat m.timestamp hm]
      simp only [Option.map_some]
      have hp := getD_of_isPrefix
        (convertLoop_platforms_isPrefix rest (internIdx ps m.platform).1
          (internIdx ss m.sender).1 []) (internIdx_lt ps m.platform) "Unknown"
      have hs := getD_of_isPrefix
        (convertLoop_senders_isPrefix rest (internIdx ps m.platform).1
          (internIdx ss m.sender).1 []) (internIdx_lt ss m.sender) "Unknown"
      simp only at hp hs ⊢
      rw [hp, hs, internIdx_getD, internIdx_getD]
      rfl
    rw [hdec]
    simp only [Option.some_bind, Option.bind_eq_bind]
    rw [ih _ _ hrest]
    rfl

/-- **C1.** Decoding the columnar encoding of any message list reproduces it
exactly: same length, same order, and each element agrees on timestamp,
platform, sender and content (which are all the fields of a `UnifiedMessage`). -/
theorem moduleC1_encode_decode_roundtrip (M : List UnifiedMessage)
    (hv : ∀ m ∈ M, m.timestamp.Valid) :
    decode_to_unified_messages (convert_to_optimized_format M) = some M := by
  unfold decode_to_unified_messages convert_to_optimized_format
  exact decode_convertLoop M [] [] hv

/-- Witness for C1 at a concrete two-message list. -/
theorem moduleC1_encode_decode_roundtrip_witness :
    decode_to_unified_messages (convert_to_optimized_format
      [⟨⟨2024, 2, 1, 14, 5, 0, 0⟩, "WhatsApp", "Alice", "Hello"⟩,
       ⟨⟨2024, 2, 3, 10, 15, 0, 0⟩, "WhatsApp", "Bob", "Bye"⟩]) =
    some [⟨⟨2024, 2, 1, 14, 5, 0, 0⟩, "WhatsApp", "Alice", "Hello"⟩,
          ⟨⟨2024, 2, 3, 10, 15, 0, 0⟩, "WhatsApp", "Bob", "Bye"⟩] :=
  moduleC1_encode_decode_roundtrip _ (by decide)

/-! ### Splitter invariants -/

theorem splitLoop_flatten (base maxTokens : Nat) :
    ∀ (rows : List Row) (cur : Nat) (chunk : List Row) (saved : List (List Row)),
      (splitLoop base maxTokens rows cur chunk saved).flatten =
        saved.flatten ++ chunk ++ rows := by
  intro rows
  induction rows with
  | nil =>
    intro cur chunk saved
    by_cases h : chunk = [] <;> simp [splitLoop, h]
  | cons r rest ih =>
    intro cur chunk saved
    by_cases h : cur + rowTokens r > maxTokens ∧ chunk ≠ []
    · simp only [splitLoop, if_pos h, ih]
      simp
    · simp only [splitLoop, if_neg h, ih]
      simp

theorem splitLoop_chunks_ok (base maxTokens : Nat) :
    ∀ (rows : List Row) (chunk : List Row) (saved : List (List Row)),
      (∀ c ∈ saved, c ≠ [] ∧ (chunkCost base c > maxTokens → ∃ r, c = [r])) →
      (chunk = [] ∨ chunkCost base chunk ≤ maxTokens ∨ ∃ r, chunk = [r]) →
      ∀ c ∈ splitLoop base maxTokens rows (chunkCost base chunk) chunk saved,
        c ≠ [] ∧ (chunkCost base c > maxTokens → ∃ r, c = [r]) := by
  intro rows
  induction rows with
  | nil =>
    intro chunk saved hsaved hchunk c hc
    by_cases h : chunk = []
    · rw [splitLoop, if_pos h] at hc
      exact hsaved c hc
    · rw [splitLoop, if_neg h] at hc
      rcases List.mem_append.1 hc with h1 | h1
      · exact hsaved c h1
      · rcases List.mem_singleton.1 h1 with rfl
        refine ⟨h, fun hcost => ?_⟩
        rcases hchunk with h2 | h2 | h2
        · exact absurd h2 h
        · omega
        · exact h2
  | cons r rest ih =>
    intro chunk saved hsaved hchunk c hc
    rw [splitLoop] at hc
    by_cases h : chunkCost base chunk + rowTokens r > maxTokens ∧ chunk ≠ []
    · rw [if_pos h] at hc
      have hcur : base + rowTokens r = chunkCost base [r] := by
        simp [chunkCost]
      rw [hcur] at hc
      refine ih [r] (saved ++ [chunk]) ?_ (Or.inr (Or.inr ⟨r, rfl⟩)) c hc
      intro c' hc'
      rcases List.mem_append.1 hc' with h1 | h1
      · exact hsaved c' h1
      · rcases List.mem_singleton.1 h1 with rfl
        refine ⟨h.2, fun hcost => ?_⟩
        rcases hchunk with h2 | h2 | h2
        · exact absurd h2 h.2
        · omega
        · exact h2
    · rw [if_neg h] at hc
      have hcur : chunkCost base chunk + rowTokens r = chunkCost base (chunk ++ [r]) := by
        simp [chunkCost]; omega
      rw [hcur] at hc
      refine ih (chunk ++ [r]) saved hsaved ?_ c hc
      by_cases hch : chunk = []
      · subst hch
        exact Or.inr (Or.inr ⟨r, rfl⟩)
      · have hle : chunkCost base chunk + rowTokens r ≤ maxTokens := by
          rcases not_and_or.1 h with h1 | h1
          · omega
          · exact absurd (not_not.1 h1) hch
        exact Or.inr (Or.inl (by rw [← hcur]; exact hle))

/-- **C5.** For every dataset and every budget: the splitter never emits an
empty shard, concatenating the shards in order reproduces every row (no row is
dropped), and any shard whose total cost (base cost plus per-row costs) exceeds
the budget consists of exactly one row — a row whose own shard cost already
exceeds the budget. -/
theorem moduleC5_splitter_budget (d : OptimizedDataset) (B : Nat) :
    (∀ c ∈ chunksOf d B, c ≠ [] ∧ (chunkCost (baseTokensOf d) c > B → ∃ r, c = [r]))
    ∧ (chunksOf d B).flatten = d.data := by
  constructor
  · have h0 : chunkCost (baseTokensOf d) [] = baseTokensOf d := by simp [chunkCost]
    intro c hc
    refine splitLoop_chunks_ok (baseTokensOf d) B d.data [] [] (by simp)
      (Or.inl rfl) c ?_
    rw [h0]
    exact hc
  · rw [chunksOf, splitLoop_flatten]
    simp

set_option maxRecDepth 4000 in
/-- Witness for C5 at the spec's own example: three rows of content lengths
`[5, 40, 5]` with budget 25 — the middle shard is an oversized singleton. -/
theorem moduleC5_splitter_budget_witness :
    (chunksOf exSplitDataset 25).flatten = exSplitDataset.data ∧
    ([⟨"2024-01-01T00:00:01", 0, 0, "bbbbbbbbbbbbbbbbbbbbbbbbbbbbbbbbbbbbbbbb"⟩]
        ≠ ([] : List Row) ∧
     (chunkCost (baseTokensOf exSplitDataset)
        [⟨"2024-01-01T00:00:01", 0, 0, "bbbbbbbbbbbbbbbbbbbbbbbbbbbbbbbbbbbbbbbb"⟩] > 25 →
       ∃ r, [(⟨"2024-01-01T00:00:01", 0, 0,
               "bbbbbbbbbbbbbbbbbbbbbbbbbbbbbbbbbbbbbbbb"⟩ : Row)] = [r])) :=
  ⟨(moduleC5_splitter_budget exSplitDataset 25).2,
   (moduleC5_splitter_budget exSplitDataset 25).1 _ (by decide)⟩

/-- **C9.** Splitting a dataset with empty `data` writes no shard at all and
returns an empty path list; loading that base name afterwards (in a fresh
directory) fails with `FileNotFoundError`. -/
theorem moduleC9_empty_dataset (ps ss cols : List String) (stem suffix : String)
    (B : Nat) :
    (save_optimized_json ⟨ps, ss, cols, []⟩ stem suffix B []).1 = [] ∧
    (save_optimized_json ⟨ps, ss, cols, []⟩ stem suffix B []).2 = [] ∧
    load_optimized_json (save_optimized_json ⟨ps, ss, cols, []⟩ stem suffix B []).2
      stem suffix = .error "FileNotFoundError" := by
  have hchunks : chunksOf ⟨ps, ss, cols, []⟩ B = [] := by
    rw [chunksOf]
    rfl
  refine ⟨?_, ?_, ?_⟩ <;>
    simp [save_optimized_json, hchunks, load_optimized_json, lookupFile]

/-- Witness for C9 at a concrete dataset. -/
theorem moduleC9_empty_dataset_witness :
    (save_optimized_json ⟨["WhatsApp"], ["Alice"], schemaColumns, []⟩
        "processed_chat_history" ".json" 500000 []).1 = [] ∧
    (save_optimized_json ⟨["WhatsApp"], ["Alice"], schemaColumns, []⟩
        "processed_chat_history" ".json" 500000 []).2 = [] ∧
    load_optimized_json
      (save_optimized_json ⟨["WhatsApp"], ["Alice"], schemaColumns, []⟩
        "processed_chat_history" ".json" 500000 []).2
      "processed_chat_history" ".json" = .error "FileNotFoundError" :=
  moduleC9_empty_dataset ["WhatsApp"] ["Alice"] schemaColumns
    "processed_chat_history" ".json" 500000

set_option maxRecDepth 8000 in
/-- **C2 counterexample.** With budget 1 the ten-row dataset splits into ten
shards `…_part1 … …_part10`; the merger sorts the part names as text, putting
`_part10` before `_part2`, so the merged dataset is not the original: the
claimed round trip fails once the split produces more than nine shards. -/
theorem moduleC2_counterexample :
    (load_optimized_json
        (save_optimized_json exTenDataset "processed_chat_history" ".json" 1 []).2
        "processed_chat_history" ".json").toOption ≠ some exTenDataset := by
  decide

theorem chunksOf_flatten (d : OptimizedDataset) (B : Nat) :
    (chunksOf d B).flatten = d.data := by
  rw [chunksOf, splitLoop_flatten]; simp

theorem toString_digit (i : Nat) (h1 : 1 ≤ i) (h9 : i ≤ 9) :
    (toString i).data = [digitOf i] := by
  interval_cases i <;> decide

theorem listCharLe_append_left (p : List Char) (x y : List Char)
    (h : listCharLe x y = true) : listCharLe (p ++ x) (p ++ y) = true := by
  induction p with
  | nil => simpa
  | cons a as ih => simp [listCharLe, ih]

theorem listCharLe_cons_of_lt {a b : Char} (h : a.toNat < b.toNat)
    (l1 l2 : List Char) : listCharLe (a :: l1) (b :: l2) = true := by
  simp [listCharLe, h]

theorem shardName_multi (stem suffix : String) {n : Nat} (hn : n ≠ 1) (k : Nat) :
    shardName stem suffix n k = stem ++ "_part" ++ toString k ++ suffix := by
  unfold shardName
  rw [if_neg]
  rintro ⟨h, _⟩
  exact hn h

theorem strLeP_shardName (stem suffix : String) {n i j : Nat} (hn : n ≠ 1)
    (h1 : 1 ≤ i) (hij : i < j) (h9 : j ≤ 9) :
    strLeP (shardName stem suffix n i) (shardName stem suffix n j) := by
  unfold strLeP strLe
  rw [shardName_multi stem suffix hn, shardName_multi stem suffix hn]
  simp only [String.data_append, toString_digit i h1 (by omega),
    toString_digit j (by omega) h9, List.append_assoc, List.singleton_append]
  apply listCharLe_append_left
  apply listCharLe_append_left
  exact listCharLe_cons_of_lt (by rw [digitOf_eq, digitOf_eq]; omega) _ _

theorem shardName_ne_exact (stem suffix : String) {n k : Nat} (hn : n ≠ 1)
    (h1 : 1 ≤ k) (h9 : k ≤ 9) :
    shardName stem suffix n k ≠ stem ++ suffix := by
  rw [shardName_multi stem suffix hn]
  intro h
  have hlen := congrArg String.length h
  have hd : (toString k).length = 1 := by
    interval_cases k <;> rfl
  simp only [String.length_append, hd] at hlen
  have h5 : ("_part" : String).length = 5 := rfl
  omega

theorem shardName_inj (stem suffix : String) {n i j : Nat} (hn : n ≠ 1)
    (h1i : 1 ≤ i) (h9i : i ≤ 9) (h1j : 1 ≤ j) (h9j : j ≤ 9) (hij : i ≠ j) :
    shardName stem suffix n i ≠ shardName stem suffix n j := by
  rw [shardName_multi stem suffix hn, shardName_multi stem suffix hn]
  intro h
  have hd := congrArg String.data h
  simp only [String.data_append, toString_digit i h1i h9i,
    toString_digit j h1j h9j, List.append_assoc, List.singleton_append] at hd
  have hd2 := List.append_cancel_left (List.append_cancel_left hd)
  have hchar : digitOf i = digitOf j := (List.cons.injEq _ _ _ _ ▸ hd2).1
  have := congrArg Char.toNat hchar
  rw [digitOf_eq, digitOf_eq] at this
  omega

theorem globMatch_shardName (stem suffix : String) {n k : Nat} (hn : n ≠ 1)
    (h1 : 1 ≤ k) (h9 : k ≤ 9) :
    globMatch stem suffix (shardName stem suffix n k) = true := by
  rw [shardName_multi stem suffix hn]
  have hd : (toString k).length = 1 := by
    interval_cases k <;> rfl
  simp only [globMatch, Bool.and_eq_true, List.isPrefixOf_iff_prefix,
    List.isSuffixOf_iff_suffix, decide_eq_true_eq]
  refine ⟨⟨?_, ?_⟩, ?_⟩
  · simp only [String.data_append, List.append_assoc]
    rw [← List.append_assoc]
    exact List.prefix_append _ _
  · simp only [String.data_append, List.append_assoc]
    rw [← List.append_assoc, ← List.append_assoc]
    exact List.suffix_append _ _
  · simp only [String.length_append, hd]
    have h5 : ("_part" : String).length = 5 := rfl
    omega

theorem lookupFile_eq_none {fs : FileSystem} {name : String}
    (h : ∀ e ∈ fs, e.1 ≠ name) : lookupFile fs name = none := by
  induction fs with
  | nil => rfl
  | cons e rest ih =>
    rw [lookupFile, if_neg (h e (List.mem_cons_self _ _))]
    exact ih fun e' he' => h e' (List.mem_cons_of_mem _ he')

theorem lookupFile_filterMap (entries : FileSystem)
    (h : (entries.map Prod.fst).Pairwise (· ≠ ·)) :
    (entries.map Prod.fst).filterMap (lookupFile entries) = entries.map Prod.snd := by
  induction entries with
  | nil => rfl
  | cons e rest ih =>
    simp only [List.map_cons] at h ⊢
    have hp := List.pairwise_cons.1 h
    rw [List.filterMap_cons]
    have he : lookupFile (e :: rest) e.1 = some e.2 := by
      rw [lookupFile, if_pos rfl]
    rw [he]
    have hcongr : ∀ nm ∈ rest.map Prod.fst,
        lookupFile (e :: rest) nm = lookupFile rest nm := by
      intro nm hnm
      rw [lookupFile, if_neg (hp.1 nm hnm)]
    rw [List.filterMap_congr hcongr, ih hp.2]

/-- **C2 (amended).** The chunk round-trip does hold as long as the split
produces at most nine shards (single-digit part numbers, where the merger's
textual sort coincides with numeric order): for any dataset with nonempty data
and any budget, saving into a fresh directory and loading the same base name
returns the dataset exactly — same meta, columns, and row sequence. -/
theorem moduleC2_roundtrip_at_most_nine (d : OptimizedDataset)
    (stem suffix : String) (B : Nat) (hne : d.data ≠ [])
    (h9 : (chunksOf d B).length ≤ 9) :
    load_optimized_json (save_optimized_json d stem suffix B []).2 stem suffix
      = .ok d := by
  have hflat := chunksOf_flatten d B
  cases hchunks : chunksOf d B with
  | nil =>
    rw [hchunks] at hflat
    exact absurd hflat.symm hne
  | cons c0 rest =>
    rw [hchunks] at hflat h9
    by_cases hn1 : rest = []
    · subst hn1
      simp only [List.flatten_cons, List.flatten_nil, List.append_nil] at hflat
      simp only [save_optimized_json, hchunks, List.enum, List.enumFrom,
        List.map_cons, List.map_nil, List.length_cons, List.length_nil,
        List.nil_append]
      have hname : shardName stem suffix 1 (0 + 1) = stem ++ suffix := by
        rw [shardName, if_pos ⟨rfl, rfl⟩]
      rw [hname, hflat]
      have hlk : lookupFile
          [(stem ++ suffix, ⟨d.platforms, d.senders, d.columns, d.data⟩)]
          (stem ++ suffix) =
          some ⟨d.platforms, d.senders, d.columns, d.data⟩ := by
        rw [lookupFile, if_pos rfl]
      simp only [load_optimized_json, hlk]
    · have hn : (c0 :: rest).length ≠ 1 := by
        cases rest with
        | nil => exact absurd rfl hn1
        | cons _ _ => simp
      -- the written entries
      set n := (c0 :: rest).length with hnlen
      have hidx : ∀ k, 1 ≤ k → k ≤ n → k ≤ 9 := fun k _ hk => le_trans hk h9
      simp only [save_optimized_json, hchunks, List.nil_append]
      set entries : FileSystem := (c0 :: rest).enum.map fun p =>
        (shardName stem suffix n (p.1 + 1),
         ⟨d.platforms, d.senders, d.columns, p.2⟩) with hentries
      have hnames : entries.map Prod.fst =
          (List.range n).map fun idx => shardName stem suffix n (idx + 1) := by
        rw [hentries, List.map_map]
        have : ((fun p : Nat × List Row =>
            (shardName stem suffix n (p.1 + 1),
             (⟨d.platforms, d.senders, d.columns, p.2⟩ : OptimizedDataset))) ∘ id) =
            (fun p : Nat × List Row =>
            (shardName stem suffix n (p.1 + 1),
             (⟨d.platforms, d.senders, d.columns, p.2⟩ : OptimizedDataset))) := rfl
        calc ((c0 :: rest).enum.map fun p =>
              Prod.fst (shardName stem suffix n (p.1 + 1),
                (⟨d.platforms, d.senders, d.columns, p.2⟩ : OptimizedDataset)))
            = (c0 :: rest).enum.map
                ((fun idx => shardName stem suffix n (idx + 1)) ∘ Prod.fst) := rfl
          _ = ((c0 :: rest).enum.map Prod.fst).map
                (fun idx => shardName stem suffix n (idx + 1)) := by
                rw [List.map_map]
          _ = (List.range n).map fun idx => shardName stem suffix n (idx + 1) := by
                rw [List.enum_map_fst]
      have hsnds : entries.map Prod.snd = (c0 :: rest).map fun c =>
          (⟨d.platforms, d.senders, d.columns, c⟩ : OptimizedDataset) := by
        rw [hentries, List.map_map]
        calc ((c0 :: rest).enum.map fun p =>
              Prod.snd (shardName stem suffix n (p.1 + 1),
                (⟨d.platforms, d.senders, d.columns, p.2⟩ : OptimizedDataset)))
            = (c0 :: rest).enum.map
                ((fun c => (⟨d.platforms, d.senders, d.columns, c⟩ :
                  OptimizedDataset)) ∘ Prod.snd) := rfl
          _ = ((c0 :: rest).enum.map Prod.snd).map
                (fun c => (⟨d.platforms, d.senders, d.columns, c⟩ :
                  OptimizedDataset)) := by rw [List.map_map]
          _ = _ := by rw [List.enum_map_snd]
      -- every written name is a numbered part name with a single-digit number
      have hmem_names : ∀ nm ∈ entries.map Prod.fst,
          ∃ idx, idx < n ∧ nm = shardName stem suffix n (idx + 1) := by
        intro nm hnm
        rw [hnames] at hnm
        obtain ⟨idx, hidx', rfl⟩ := List.mem_map.1 hnm
        exact ⟨idx, List.mem_range.1 hidx', rfl⟩
      rw [load_optimized_json]
      have hnone : lookupFile entries (stem ++ suffix) = none := by
        apply lookupFile_eq_none
        intro e he
        have : e.1 ∈ entries.map Prod.fst := List.mem_map_of_mem _ he
        obtain ⟨idx, hidx', heq⟩ := hmem_names e.1 this
        rw [heq]
        exact shardName_ne_exact stem suffix hn (by omega)
          (hidx (idx + 1) (by omega) (by omega))
      rw [hnone]
      have hfilter : (entries.map Prod.fst).filter (globMatch stem suffix) =
          entries.map Prod.fst := by
        rw [List.filter_eq_self]
        intro nm hnm
        obtain ⟨idx, hidx', rfl⟩ := hmem_names nm hnm
        exact globMatch_shardName stem suffix hn (by omega)
          (hidx (idx + 1) (by omega) (by omega))
      rw [hfilter]
      have hsorted : (entries.map Prod.fst).Sorted strLeP := by
        rw [hnames, List.Sorted, List.pairwise_map]
        refine List.Pairwise.imp_of_mem ?_ (List.pairwise_lt_range n)
        intro a b _ hb hab
        have hbn : b < n := List.mem_range.1 hb
        exact strLeP_shardName stem suffix hn (by omega) (by omega)
          (hidx (b + 1) (by omega) (by omega))
      rw [hsorted.insertionSort_eq]
      have hne' : entries.map Prod.fst ≠ [] := by
        rw [hnames, hnlen]
        simp [List.range_succ_eq_map]
      rw [if_neg (by simpa using hne')]
      have hdistinct : (entries.map Prod.fst).Pairwise (· ≠ ·) := by
        rw [hnames, List.pairwise_map]
        refine List.Pairwise.imp_of_mem ?_ (List.pairwise_lt_range n)
        intro a b ha hb hab
        have han : a < n := List.mem_range.1 ha
        have hbn : b < n := List.mem_range.1 hb
        exact shardName_inj stem suffix hn (by omega)
          (hidx (a + 1) (by omega) (by omega)) (by omega)
          (hidx (b + 1) (by omega) (by omega)) (by omega)
      rw [lookupFile_filterMap entries hdistinct, hsnds]
      simp only [List.map_cons]
      have hdata : List.map OptimizedDataset.data
          (List.map (fun c =>
            (⟨d.platforms, d.senders, d.columns, c⟩ : OptimizedDataset)) rest)
          = rest := by
        rw [List.map_map]
        exact List.map_id' rest
      rw [hdata, hflat]

set_option maxRecDepth 4000 in
/-- Witness for the amended C2 at the spec's splitter example (three shards). -/
theorem moduleC2_roundtrip_at_most_nine_witness :
    load_optimized_json
      (save_optimized_json exSplitDataset "processed_chat_history" ".json" 25 []).2
      "processed_chat_history" ".json" = .ok exSplitDataset :=
  moduleC2_roundtrip_at_most_nine exSplitDataset "processed_chat_history" ".json" 25
    (by decide) (by decide)

/-! ### WhatsApp parser theorems -/

set_option maxRecDepth 8000 in
/-- **C6.** The spec's four-line WhatsApp example parses to exactly two Alice
messages (multi-line "Hello\nthere" and "Bye"); Bob's media line yields no
message, and a stray continuation line inserted after the media marker attaches
to nothing. -/
theorem moduleC6_continuation_and_media :
    parse_whatsapp ["01/02/2024, 14:05 - Alice: Hello", "there",
        "02/02/2024, 09:00 - Bob: <Media omitted>",
        "03/02/2024, 10:15 - Alice: Bye"] =
      [⟨⟨2024, 2, 1, 14, 5, 0, 0⟩, "WhatsApp", "Alice", "Hello\nthere"⟩,
       ⟨⟨2024, 2, 3, 10, 15, 0, 0⟩, "WhatsApp", "Alice", "Bye"⟩] ∧
    parse_whatsapp ["01/02/2024, 14:05 - Alice: Hello", "there",
        "02/02/2024, 09:00 - Bob: <Media omitted>", "stray continuation",
        "03/02/2024, 10:15 - Alice: Bye"] =
      [⟨⟨2024, 2, 1, 14, 5, 0, 0⟩, "WhatsApp", "Alice", "Hello\nthere"⟩,
       ⟨⟨2024, 2, 3, 10, 15, 0, 0⟩, "WhatsApp", "Alice", "Bye"⟩] := by
  constructor <;> decide

set_option maxRecDepth 8000 in
/-- **C7.** Timestamp normalization tries the four candidate formats in the
fixed order 24h/4-digit-year, 24h/2-digit-year, 12h/4-digit-year,
12h/2-digit-year and returns the first success; in particular date `05/03/24`
with time `11:59 PM` (narrow no-break space) fails the first three formats and
parses by the fourth to 2024-03-05T23:59. -/
theorem moduleC7_format_order :
    (∀ cs dt, parseFmt24Y4 cs = some dt → tryFormats cs = some dt) ∧
    (∀ cs dt, parseFmt24Y4 cs = none → parseFmt24Y2 cs = some dt →
      tryFormats cs = some dt) ∧
    (∀ cs dt, parseFmt24Y4 cs = none → parseFmt24Y2 cs = none →
      parseFmt12Y4 cs = some dt → tryFormats cs = some dt) ∧
    (∀ cs, parseFmt24Y4 cs = none → parseFmt24Y2 cs = none →
      parseFmt12Y4 cs = none → tryFormats cs = parseFmt12Y2 cs) ∧
    (parseFmt24Y4 (normalizeDT "05/03/24".data "11:59 PM".data) = none ∧
     parseFmt24Y2 (normalizeDT "05/03/24".data "11:59 PM".data) = none ∧
     parseFmt12Y4 (normalizeDT "05/03/24".data "11:59 PM".data) = none ∧
     parseFmt12Y2 (normalizeDT "05/03/24".data "11:59 PM".data) =
       some ⟨2024, 3, 5, 23, 59, 0, 0⟩ ∧
     tryFormats (normalizeDT "05/03/24".data "11:59 PM".data) =
       some ⟨2024, 3, 5, 23, 59, 0, 0⟩) := by
  refine ⟨?_, ?_, ?_, ?_, ?_⟩
  · intro cs dt h; unfold tryFormats; rw [h]
  · intro cs dt h1 h2; unfold tryFormats; rw [h1, h2]
  · intro cs dt h1 h2 h3; unfold tryFormats; rw [h1, h2, h3]
  · intro cs h1 h2 h3; unfold tryFormats; rw [h1, h2, h3]
  · decide

set_option maxRecDepth 8000 in
/-- **C3 counterexample.** When a media-omitted header arrives while a message
is open, the open message is *not* discarded: it is finalized and appears in
the output (here it is the entire output), contradicting the claim that it
"does not appear in the parser's output". -/
theorem moduleC3_counterexample :
    parse_whatsapp ["01/02/2024, 14:05 - Alice: Hello",
        "02/02/2024, 09:00 - Bob: <Media omitted>"] =
      [⟨⟨2024, 2, 1, 14, 5, 0, 0⟩, "WhatsApp", "Alice", "Hello"⟩] := by
  decide

/-- **C3 (amended).** A media-omitted header produces no message of its own,
*finalizes and appends* the currently open message, and leaves no open
accumulator; subsequent non-header lines are dropped until the next valid
header. -/
theorem moduleC3_media_line (msgs : List UnifiedMessage)
    (cur : Option UnifiedMessage) (line : String)
    (d t snd c : List Char)
    (hmatch : headerMatch (stripChars line.data) = some (d, t, snd, c))
    (hmedia : stripChars c = mediaMarker.data) :
    processLine (msgs, cur) line = (msgs ++ cur.toList, none) ∧
    ∀ l2 : String, headerMatch (stripChars l2.data) = none →
      processLine (msgs ++ cur.toList, none) l2 = (msgs ++ cur.toList, none) := by
  constructor
  · have hne : stripChars line.data ≠ [] := by
      intro h
      rw [h] at hmatch
      exact Option.noConfusion ((rfl : headerMatch [] = none) ▸ hmatch)
    unfold processLine
    rw [if_neg hne, hmatch]
    simp only [if_pos hmedia]
  · intro l2 h2
    unfold processLine
    by_cases he : stripChars l2.data = []
    · rw [if_pos he]
    · rw [if_neg he, h2]

set_option maxRecDepth 8000 in
/-- Witness for the amended C3 at the spec's media line. -/
theorem moduleC3_media_line_witness :
    processLine ([], some ⟨⟨2024, 2, 1, 14, 5, 0, 0⟩, "WhatsApp", "Alice", "Hello"⟩)
        "02/02/2024, 09:00 - Bob: <Media omitted>" =
      ([⟨⟨2024, 2, 1, 14, 5, 0, 0⟩, "WhatsApp", "Alice", "Hello"⟩], none) ∧
    processLine ([⟨⟨2024, 2, 1, 14, 5, 0, 0⟩, "WhatsApp", "Alice", "Hello"⟩], none)
        "stray continuation" =
      ([⟨⟨2024, 2, 1, 14, 5, 0, 0⟩, "WhatsApp", "Alice", "Hello"⟩], none) :=
  ⟨(moduleC3_media_line [] (some ⟨⟨2024, 2, 1, 14, 5, 0, 0⟩, "WhatsApp", "Alice", "Hello"⟩)
      "02/02/2024, 09:00 - Bob: <Media omitted>" "02/02/2024".data "09:00".data
      "Bob".data "<Media omitted>".data (by decide) (by decide)).1,
   (moduleC3_media_line [] (some ⟨⟨2024, 2, 1, 14, 5, 0, 0⟩, "WhatsApp", "Alice", "Hello"⟩)
      "02/02/2024, 09:00 - Bob: <Media omitted>" "02/02/2024".data "09:00".data
      "Bob".data "<Media omitted>".data (by decide) (by decide)).2
      "stray continuation" (by decide)⟩

/-! ### Strip idempotence (for C10) -/

theorem dropWhile_dropWhile (p : Char → Bool) (l : List Char) :
    (l.dropWhile p).dropWhile p = l.dropWhile p := by
  induction l with
  | nil => rfl
  | cons c t ih =>
    by_cases h : p c
    · simp [List.dropWhile_cons, h, ih]
    · simp [List.dropWhile_cons, h]

theorem dropWhile_stripChars (cs : List Char) :
    (stripChars cs).dropWhile isPySpace = stripChars cs := by
  unfold stripChars
  set X := cs.dropWhile isPySpace with hX
  have hXfix : X.dropWhile isPySpace = X := dropWhile_dropWhile isPySpace cs
  cases h : (X.reverse.dropWhile isPySpace).reverse with
  | nil => simp [h]
  | cons c t =>
    have hsuf : X.reverse.dropWhile isPySpace <:+ X.reverse :=
      List.dropWhile_suffix _
    have hpre : (X.reverse.dropWhile isPySpace).reverse <+: X := by
      have := List.reverse_prefix.2 hsuf
      simpa using this
    rw [h] at hpre
    obtain ⟨rest, hrest⟩ := hpre
    have hpc : isPySpace c = false := by
      by_cases hc : isPySpace c
      · exfalso
        have hXc : X = c :: (t ++ rest) := by rw [← hrest]; simp
        have hlen := congrArg List.length hXfix
        rw [hXc] at hlen
        simp [List.dropWhile_cons, hc] at hlen
        have := (List.dropWhile_sublist (l := t ++ rest) isPySpace).length_le
        have hl : (t ++ rest).length = t.length + rest.length :=
          List.length_append _ _
        omega
      · simpa using hc
    simp [List.dropWhile_cons, hpc]

theorem stripChars_idem (cs : List Char) :
    stripChars (stripChars cs) = stripChars cs := by
  conv_lhs => rw [stripChars, dropWhile_stripChars cs]
  rw [show stripChars cs =
      ((cs.dropWhile isPySpace).reverse.dropWhile isPySpace).reverse from rfl,
    List.reverse_reverse, dropWhile_dropWhile]

theorem processLine_strip (st : List UnifiedMessage × Option UnifiedMessage)
    (l : String) : processLine st (pyStrip l) = processLine st l := by
  unfold processLine
  rw [show (pyStrip l).data = stripChars l.data from rfl, stripChars_idem]

set_option maxRecDepth 8000 in
/-- **C10.** Every input line is whitespace-stripped before it is matched as a
header or appended as a continuation: parsing the stripped lines is literally
the same as parsing the raw lines, and (concretely) a continuation line with
surrounding whitespace is stored trimmed, not verbatim. -/
theorem moduleC10_lines_stripped :
    (∀ lines : List String,
      parse_whatsapp (lines.map pyStrip) = parse_whatsapp lines) ∧
    parse_whatsapp ["01/02/2024, 14:05 - Alice: Hello", "   there  \t"] =
      [⟨⟨2024, 2, 1, 14, 5, 0, 0⟩, "WhatsApp", "Alice", "Hello\nthere"⟩] := by
  constructor
  · intro lines
    unfold parse_whatsapp
    suffices h : ∀ st, (lines.map pyStrip).foldl processLine st =
        lines.foldl processLine st by rw [h]
    induction lines with
    | nil => intro st; rfl
    | cons l rest ih =>
      intro st
      simp only [List.map_cons, List.foldl_cons, processLine_strip]
      exact ih _
  · decide

/-! ### Instagram parser theorems -/

/-- **C4 counterexample.** An Instagram record with usable content but no
`timestamp_ms` raises `TypeError` (`None / 1000.0`) and aborts the whole
parse — the failure is not local. -/
theorem moduleC4_counterexample :
    parse_instagram [⟨some "A", none, some "hi", none⟩] = .error "TypeError" := by
  decide

theorem buildRecord_ok_of_wf (r : InstaRecord)
    (h : recContent r ≠ none → r.timestamp_ms ≠ none ∧ r.sender_name ≠ none) :
    ∃ o, buildRecord r = .ok o := by
  unfold buildRecord
  cases hc : recContent r with
  | none => exact ⟨none, rfl⟩
  | some content =>
    obtain ⟨hts, hsnd⟩ := h (by rw [hc]; simp)
    cases hts' : r.timestamp_ms with
    | none => exact absurd hts' hts
    | some ts =>
      cases hsn : r.sender_name with
      | none => exact absurd hsn hsnd
      | some snd =>
        dsimp only
        cases latin1Utf8Fix content with
        | none => exact ⟨_, rfl⟩
        | some c2 =>
          dsimp only
          cases latin1Utf8Fix snd with
          | none => exact ⟨_, rfl⟩
          | some s2 => exact ⟨_, rfl⟩

theorem instaLoop_append (records : List InstaRecord)
    (h : ∀ r ∈ records, ∃ o, buildRecord r = .ok o) :
    ∀ acc, instaLoop records acc =
      .ok (acc ++ records.filterMap fun r => (buildRecord r).toOption.join) := by
  induction records with
  | nil => intro acc; simp [instaLoop]
  | cons r rest ih =>
    intro acc
    obtain ⟨o, ho⟩ := h r (List.mem_cons_self _ _)
    have hrest : ∀ r' ∈ rest, ∃ o, buildRecord r' = .ok o :=
      fun r' hr' => h r' (List.mem_cons_of_mem _ hr')
    rw [instaLoop, ho]
    cases o with
    | none =>
      dsimp only
      rw [ih hrest acc]
      simp [List.filterMap_cons, ho, Except.toOption]
    | some m =>
      dsimp only
      rw [ih hrest (acc ++ [m])]
      simp [List.filterMap_cons, ho, Except.toOption]

/-- **C4 (amended).** Per-record failures are local for every record the code
guards: records without usable content are dropped and parsing continues,
returning exactly the messages built from the valid records; a WhatsApp header
whose timestamp fails all formats drops only that line.  However the guard
does not cover a missing `timestamp_ms` (or a missing `sender_name`) on a
content-bearing Instagram record, which aborts the parse — hence the
hypothesis. -/
theorem moduleC4_local_failures (records : List InstaRecord)
    (hwf : ∀ r ∈ records, recContent r ≠ none →
      r.timestamp_ms ≠ none ∧ r.sender_name ≠ none) :
    parse_instagram records = .ok (List.insertionSort msgLe
      (records.filterMap fun r => (buildRecord r).toOption.join)) ∧
    ∀ (msgs : List UnifiedMessage) (cur : Option UnifiedMessage) (line : String)
      (d t snd c : List Char),
      headerMatch (stripChars line.data) = some (d, t, snd, c) →
      stripChars c ≠ mediaMarker.data →
      tryFormats (normalizeDT d t) = none →
      processLine (msgs, cur) line = (msgs ++ cur.toList, none) := by
  constructor
  · unfold parse_instagram
    rw [instaLoop_append records
      (fun r hr => buildRecord_ok_of_wf r (hwf r hr)) []]
    rfl
  · intro msgs cur line d t snd c hmatch hmedia htf
    have hne : stripChars line.data ≠ [] := by
      intro h
      rw [h] at hmatch
      exact Option.noConfusion ((rfl : headerMatch [] = none) ▸ hmatch)
    unfold processLine
    rw [if_neg hne, hmatch]
    simp only [if_neg hmedia, htf]

set_option maxRecDepth 8000 in
/-- Witness for the amended C4: a contentless record is dropped while a valid
one is kept, and a Feb-30 WhatsApp header (unparsable timestamp) drops only
its own line. -/
theorem moduleC4_local_failures_witness :
    parse_instagram [⟨some "A", some 1000, some "hi", none⟩,
        ⟨some "B", some 2000, none, none⟩] =
      .ok [⟨⟨1970, 1, 1, 0, 0, 1, 0⟩, "Instagram", "A", "hi"⟩] ∧
    processLine ([], none) "30/02/2024, 10:00 - Alice: Hi" = ([], none) :=
  ⟨(moduleC4_local_failures [⟨some "A", some 1000, some "hi", none⟩,
      ⟨some "B", some 2000, none, none⟩] (by decide)).1,
   (moduleC4_local_failures [⟨some "A", some 1000, some "hi", none⟩,
      ⟨some "B", some 2000, none, none⟩] (by decide)).2 [] none
      "30/02/2024, 10:00 - Alice: Hi" "30/02/2024".data "10:00".data
      "Alice".data "Hi".data (by decide) (by decide) (by decide)⟩

/-- **C8.** `parse_instagram` output is sorted ascending by timestamp, is a
permutation of the messages built in source-array order, and the sort is
stable: the subsequence of messages carrying any fixed timestamp is unchanged
from the pre-sort order. -/
theorem moduleC8_sorted_stable (records : List InstaRecord)
    (built msgs : List UnifiedMessage)
    (hb : instaLoop records [] = .ok built)
    (h : parse_instagram records = .ok msgs) :
    msgs.Sorted msgLe ∧ List.Perm msgs built ∧
    ∀ t : PyDateTime, (msgs.filter fun m => m.timestamp = t) =
      built.filter fun m => m.timestamp = t := by
  have hmsgs : msgs = List.insertionSort msgLe built := by
    unfold parse_instagram at h
    rw [hb] at h
    simpa [Except.map] using h.symm
  subst hmsgs
  refine ⟨List.sorted_insertionSort msgLe built,
    List.perm_insertionSort msgLe built, ?_⟩
  intro t
  have hpair : (built.filter fun m => m.timestamp = t).Pairwise msgLe := by
    apply List.pairwise_of_forall_mem_list
    intro a ha b hbm
    have ha2 : a.timestamp = t := by simpa using (List.mem_filter.1 ha).2
    have hb2 : b.timestamp = t := by simpa using (List.mem_filter.1 hbm).2
    unfold msgLe PyDateTime.le
    rw [ha2, hb2]
    omega
  have hsub : List.Sublist (built.filter fun m => m.timestamp = t)
      (List.insertionSort msgLe built) :=
    List.sublist_insertionSort hpair (List.filter_sublist built)
  have hself : ((built.filter fun m => m.timestamp = t).filter
      fun m => m.timestamp = t) = built.filter fun m => m.timestamp = t :=
    List.filter_eq_self.2 fun a ha => (List.mem_filter.1 ha).2
  have hsub2 : List.Sublist (built.filter fun m => m.timestamp = t)
      ((List.insertionSort msgLe built).filter fun m => m.timestamp = t) :=
    hself ▸ hsub.filter _
  have hperm : List.Perm
      ((List.insertionSort msgLe built).filter fun m => m.timestamp = t)
      (built.filter fun m => m.timestamp = t) :=
    (List.perm_insertionSort msgLe built).filter _
  exact (hsub2.eq_of_length hperm.length_eq.symm).symm

set_option maxRecDepth 8000 in
/-- Witness for C8: out-of-order records with a timestamp tie come back sorted
with the tie in source order. -/
theorem moduleC8_sorted_stable_witness :
    List.Sorted msgLe [igB, igC, igA] ∧
    List.Perm [igB, igC, igA] [igA, igB, igC] ∧
    ([igB, igC, igA].filter
        fun m => m.timestamp = (⟨1970, 1, 1, 0, 0, 1, 0⟩ : PyDateTime)) =
      [igA, igB, igC].filter
        fun m => m.timestamp = (⟨1970, 1, 1, 0, 0, 1, 0⟩ : PyDateTime) :=
  have H := moduleC8_sorted_stable
    [⟨some "A", some 2000, some "x", none⟩,
     ⟨some "B", some 1000, some "y", none⟩,
     ⟨some "C", some 1000, some "z", none⟩]
    [igA, igB, igC] [igB, igC, igA] (by decide) (by decide)
  ⟨H.1, H.2.1, H.2.2 ⟨1970, 1, 1, 0, 0, 1, 0⟩⟩

end Jagga
